import Mathlib

/-!
Shallow embedding of the data-reconciliation and metrics-derivation pipeline
of the momo x Meta Campaign Dashboard (src/types.ts, src/utils.ts,
src/App.tsx).  JavaScript numbers are modelled as rationals, optional fields
as `Option`, and the insertion-ordered JavaScript `Map` as an association
list whose `set` updates an existing key in place and appends a fresh key at
the end.
-/

/-- Canonical campaign record, from `CampaignData` in src/types.ts (first
variant): tabular required fields plus the six optional external-insights
fields. -/
structure CampaignData where
  id : String
  date : String
  campaignName : String
  spent : ℚ
  cpc : ℚ
  roas : ℚ
  cvr : ℚ
  cpa : ℚ
  clicks : ℚ
  conversions : ℚ
  revenue : ℚ
  reach : Option ℚ := none
  impressions : Option ℚ := none
  cpm : Option ℚ := none
  ctr : Option ℚ := none
  linkClicks : Option ℚ := none
  frequency : Option ℚ := none
  deriving DecidableEq, Repr

/-- JavaScript `Map.set` on an insertion-ordered string-keyed map: a present
key is updated in place, an absent key is appended at the end. -/
def mapSet {β : Type} : List (String × β) → String → β → List (String × β)
  | [], k, v => [(k, v)]
  | (k', v') :: rest, k, v =>
    if k' = k then (k, v) :: rest else (k', v') :: mapSet rest k v

/-- JavaScript `Map.get`: the value stored at a key, if present. -/
def mapGet {β : Type} : List (String × β) → String → Option β
  | [], _ => none
  | (k', v') :: rest, k => if k' = k then some v' else mapGet rest k

/-- One `forEach` pass that upserts into a `Map`: for each element the entry
at its key becomes `f` of the current entry (if any) and the element. -/
def foldUpsert {α β : Type} (keyf : α → String) (f : Option β → α → β)
    (m : List (String × β)) (l : List α) : List (String × β) :=
  l.foldl (fun m a => mapSet m (keyf a) (f (mapGet m (keyf a)) a)) m

/-- One `forEach` pass that only updates existing `Map` entries; elements
whose key is absent from the map are skipped. -/
def foldUpdate {α β : Type} (keyf : α → String) (g : β → α → β)
    (m : List (String × β)) (l : List α) : List (String × β) :=
  l.foldl (fun m a =>
    match mapGet m (keyf a) with
    | some e => mapSet m (keyf a) (g e a)
    | none => m) m

/-- JavaScript truthiness of an optional number: `undefined` and `0` are
falsy, any other number is truthy. -/
def truthyNum : Option ℚ → Bool
  | none => false
  | some q => q != 0

/-- JavaScript truthiness of an optional string: `undefined` and `""` are
falsy. -/
def truthyStr : Option String → Bool
  | none => false
  | some s => s != ""

/-- Whitespace characters stripped by JavaScript `String.prototype.trim`. -/
def jsWhitespace (c : Char) : Bool :=
  c == ' ' || c == '\t' || c == '\n' || c == '\r'

/-- JavaScript `String.prototype.trim`: whitespace removed from both ends. -/
def jsTrim (s : String) : String :=
  String.mk (((s.data.dropWhile jsWhitespace).reverse.dropWhile jsWhitespace).reverse)

/-- Final `.sort((a, b) => new Date(a.date).getTime() - new Date(b.date).getTime())`
of both merge functions: a stable sort ascending by date.  On the normalized
`YYYY-MM-DD` dates produced by the parsers, timestamp order coincides with
lexicographic string order, so the comparator is modelled as string `≤`. -/
def sortByDate (l : List CampaignData) : List CampaignData :=
  List.insertionSort (fun a b => a.date ≤ b.date) l

/-- Merge key of `mergeCampaignData` (src/utils.ts line 342/346):
`` `${item.date}|${item.campaignName}` `` with the campaign name exactly as
stored. -/
def importKey (item : CampaignData) : String :=
  item.date ++ "|" ++ item.campaignName

/-- Backfill of one optional external-insights field in `mergeCampaignData`
(src/utils.ts lines 350-355): the existing value is kept exactly when the
incoming one is falsy and the existing one is truthy. -/
def backfillField (inc ex : Option ℚ) : Option ℚ :=
  if !truthyNum inc && truthyNum ex then ex else inc

/-- Lines 349-356 of src/utils.ts: the incoming item with each of the six
optional external-insights fields backfilled from the existing item stored
under the same key. -/
def backfill (item ex : CampaignData) : CampaignData :=
  { item with
    reach := backfillField item.reach ex.reach
    impressions := backfillField item.impressions ex.impressions
    cpm := backfillField item.cpm ex.cpm
    ctr := backfillField item.ctr ex.ctr
    frequency := backfillField item.frequency ex.frequency
    linkClicks := backfillField item.linkClicks ex.linkClicks }

/-- First loop of `mergeCampaignData` (src/utils.ts lines 341-344): the
working set loaded into the map. -/
def existingMap (existing : List CampaignData) : List (String × CampaignData) :=
  foldUpsert importKey (fun _ item => item) [] existing

/-- Body of the incoming loop of `mergeCampaignData` (lines 345-357): the
incoming item, backfilled from the existing entry when one is present, is
stored unconditionally. -/
def importCombine (cur : Option CampaignData) (item : CampaignData) : CampaignData :=
  match cur with
  | some existingItem => backfill item existingItem
  | none => item

/-- The map state after both loops of `mergeCampaignData`. -/
def mergeCampaignMap (existing incoming : List CampaignData) :
    List (String × CampaignData) :=
  foldUpsert importKey importCombine (existingMap existing) incoming

/-- `mergeCampaignData` (src/utils.ts lines 339-362): map values, sorted
ascending by date. -/
def mergeCampaignData (existing incoming : List CampaignData) : List CampaignData :=
  sortByDate ((mergeCampaignMap existing incoming).map Prod.snd)

/-- Merge key of `mergeFacebookData` (src/utils.ts lines 452/456):
`` `${item.date}|${item.campaignName.trim()}` ``. -/
def fbKey (item : CampaignData) : String :=
  item.date ++ "|" ++ jsTrim item.campaignName

/-- First loop of `mergeFacebookData` (lines 451-453): the sheet-side working
set loaded into the map (the `{ ...item }` spread copies every field). -/
def sheetMap (sheetData : List CampaignData) : List (String × CampaignData) :=
  foldUpsert fbKey (fun _ item => item) [] sheetData

/-- Enrichment overlay of `mergeFacebookData` (lines 460-469): the six
optional external fields of the matched record are overwritten from the
external item; every other field is kept. -/
def applyFb (e f : CampaignData) : CampaignData :=
  { e with
    reach := f.reach
    impressions := f.impressions
    cpm := f.cpm
    ctr := f.ctr
    linkClicks := f.linkClicks
    frequency := f.frequency }

/-- The map state after both loops of `mergeFacebookData`; external items
whose key has no match are skipped (lines 455-471). -/
def fbMergeMap (sheetData fbData : List CampaignData) :
    List (String × CampaignData) :=
  foldUpdate fbKey applyFb (sheetMap sheetData) fbData

/-- `mergeFacebookData` (src/utils.ts lines 448-476): map values, sorted
ascending by date. -/
def mergeFacebookData (sheetData fbData : List CampaignData) : List CampaignData :=
  sortByDate ((fbMergeMap sheetData fbData).map Prod.snd)

/-- Initial aggregation entry of `aggregatedTableData` (src/App.tsx lines
178-193): the first record of the group spread-copied, with `id` set to the
campaign name, `date` to the placeholder `"Range"`, and the summed quantities
reset to 0 (the optional `reach`, `impressions`, `linkClicks` to the number
0, not `undefined`). -/
def aggStart (item : CampaignData) : CampaignData :=
  { item with
    id := item.campaignName
    date := "Range"
    spent := 0
    revenue := 0
    clicks := 0
    conversions := 0
    reach := some 0
    impressions := some 0
    linkClicks := some 0 }

/-- Accumulation step of `aggregatedTableData` (src/App.tsx lines 195-202):
`spent`, `revenue`, `clicks`, `conversions` and the three optional counts are
summed (`x || 0` mapping an undefined optional to 0). -/
def aggAdd (agg item : CampaignData) : CampaignData :=
  { agg with
    spent := agg.spent + item.spent
    revenue := agg.revenue + item.revenue
    clicks := agg.clicks + item.clicks
    conversions := agg.conversions + item.conversions
    reach := some (agg.reach.getD 0 + item.reach.getD 0)
    impressions := some (agg.impressions.getD 0 + item.impressions.getD 0)
    linkClicks := some (agg.linkClicks.getD 0 + item.linkClicks.getD 0) }

/-- Ratio recomputation of `aggregatedTableData` (src/App.tsx lines 206-226):
every ratio metric is recomputed from the summed totals, guarded to 0 when
its denominator is not positive; `ctr` uses `linkClicks || clicks`. -/
def aggRecalc (item : CampaignData) : CampaignData :=
  { item with
    cpc := if 0 < item.clicks then item.spent / item.clicks else 0
    roas := if 0 < item.spent then item.revenue / item.spent else 0
    cvr := if 0 < item.clicks then item.conversions / item.clicks else 0
    cpa := if 0 < item.conversions then item.spent / item.conversions else 0
    cpm := some (if 0 < item.impressions.getD 0 then
        item.spent / (item.impressions.getD 0 / 1000) else 0)
    ctr := some (if 0 < item.impressions.getD 0 then
        (if truthyNum item.linkClicks then item.linkClicks.getD 0 else item.clicks)
          / item.impressions.getD 0 else 0)
    frequency := some (if 0 < item.reach.getD 0 then
        item.impressions.getD 0 / item.reach.getD 0 else 0) }

/-- The grouping loop of `aggregatedTableData` (src/App.tsx lines 172-203):
records are grouped by `campaignName` in a `Map`, each group folded with
`aggAdd` starting from `aggStart` of its first record. -/
def aggMap (l : List CampaignData) : List (String × CampaignData) :=
  foldUpsert (fun item => item.campaignName)
    (fun cur item => aggAdd (cur.getD (aggStart item)) item) [] l

/-- Per-campaign list `aggregatedList` of `aggregatedTableData` (src/App.tsx lines 206-226):
the per-campaign totals with all ratio metrics recomputed, before the
caller-selected display sort (which only reorders rows). -/
def aggregatedList (l : List CampaignData) : List CampaignData :=
  ((aggMap l).map Prod.snd).map aggRecalc

/-- Record built for one tabular row by `parseSheetData` (src/utils.ts lines
238-259; `parseCSV` lines 53-69 and `readExcelFile` lines 307-326 share the
formulas): `clicks`, `conversions`, `revenue` are derived from `spent` and
the stored ratios, and `linkClicks` is never set by a tabular parse. -/
def mkParsedRecord (id date campaignName : String) (spent cpc roas cvr cpa : ℚ)
    (reach impressions cpm ctr frequency : Option ℚ) : CampaignData :=
  { id := id
    date := date
    campaignName := campaignName
    spent := spent
    cpc := cpc
    roas := roas
    cvr := cvr
    cpa := cpa
    clicks := if 0 < cpc then spent / cpc else 0
    conversions := if 0 < cpa then spent / cpa else 0
    revenue := spent * roas
    reach := reach
    impressions := impressions
    cpm := cpm
    ctr := ctr
    linkClicks := none
    frequency := frequency }

/-- One element of the `actions` array of a raw insights API entry. -/
structure FbAction where
  action_type : String
  value : ℚ
  deriving DecidableEq, Repr

/-- One raw entry of the insights API response, with `spend`, `impressions`
and `reach` already taken through the numeric parses of src/utils.ts lines
396-398; `actions` is `none` when the field is not an array. -/
structure FbApiEntry where
  date_start : String
  campaign_id : String
  campaign_name : String
  spend : ℚ
  impressions : ℚ
  reach : ℚ
  actions : Option (List FbAction)
  deriving DecidableEq, Repr

/-- Link clicks extracted from the action list (src/utils.ts lines 401-407):
only the `link_click` action type is scanned; 0 when absent. -/
def entryLinkClicks (e : FbApiEntry) : ℚ :=
  match e.actions with
  | some acts =>
    match acts.find? (fun action => action.action_type == "link_click") with
    | some a => a.value
    | none => 0
  | none => 0

/-- Record produced for one raw API entry by `fetchFacebookInsights`
(src/utils.ts lines 395-441): `cpc`, `cpm`, `ctr`, `frequency` computed from
spend/impressions/reach/link clicks, and `roas`, `cvr`, `cpa`, `conversions`,
`revenue` set to 0. -/
def mapFbEntry (e : FbApiEntry) (index : ℕ) : CampaignData :=
  { id := "fb-" ++ e.date_start ++ "-" ++ e.campaign_id ++ "-" ++ toString index
    date := e.date_start
    campaignName := e.campaign_name
    spent := e.spend
    cpc := if 0 < entryLinkClicks e then e.spend / entryLinkClicks e else 0
    roas := 0
    cvr := 0
    cpa := 0
    clicks := entryLinkClicks e
    conversions := 0
    revenue := 0
    reach := some e.reach
    impressions := some e.impressions
    cpm := some (if 0 < e.impressions then e.spend / (e.impressions / 1000) else 0)
    ctr := some (if 0 < e.impressions then entryLinkClicks e / e.impressions else 0)
    linkClicks := some (entryLinkClicks e)
    frequency := some (if 0 < e.reach then e.impressions / e.reach else 0) }

/-- One HTTP request of the insights client to the insights edge. -/
structure FbRequest where
  timeRange : Option (String × String)
  datePreset : Option String
  limit : ℕ
  deriving DecidableEq, Repr

/-- The sequence of insights requests `fetchFacebookInsights` issues for one
fetch (src/utils.ts lines 364-384): a single URL is built — with
`time_range={since,until}` when both dates are truthy, otherwise
`date_preset=maximum` — and fetched exactly once; the response is read once
and no paging cursor is followed. -/
def fbInsightsRequests (startDate endDate : Option String) : List FbRequest :=
  if truthyStr startDate && truthyStr endDate then
    [{ timeRange := some (startDate.getD "", endDate.getD ""),
       datePreset := none, limit := 1000 }]
  else
    [{ timeRange := none, datePreset := some "maximum", limit := 1000 }]

/-- Sum of one numeric field over a list of records. -/
def sumBy (f : CampaignData → ℚ) (l : List CampaignData) : ℚ :=
  (l.map f).sum

/-- Plain working-set record with all ratio and derived fields zero and no
external-insights fields, used as a concrete test input. -/
def plainRecord (id date name : String) (spent : ℚ) : CampaignData :=
  { id := id, date := date, campaignName := name, spent := spent,
    cpc := 0, roas := 0, cvr := 0, cpa := 0,
    clicks := 0, conversions := 0, revenue := 0 }

/-- Day-1 record of the weighted-aggregation example: spent 100, revenue 50
(per-day roas 0.5). -/
def c1day1 : CampaignData :=
  mkParsedRecord "r1" "2024-01-01" "Camp A" 100 0 (1/2) 0 0 none none none none none

/-- Day-2 record of the weighted-aggregation example: spent 300, revenue 300
(per-day roas 1.0). -/
def c1day2 : CampaignData :=
  mkParsedRecord "r2" "2024-01-02" "Camp A" 300 0 1 0 0 none none none none none

/-- Parsed record whose stored `cvr` (0.05) is unrelated to `cpc / cpa`
(2 / 10 = 0.2): spent 100, cpc 2, roas 1, cvr 1/20, cpa 10. -/
def c8record : CampaignData :=
  mkParsedRecord "r1" "2024-01-01" "Camp A" 100 2 1 (1/20) 10 none none none none none

/-- Existing working-set record for the import-merge tests. -/
def c3exist : CampaignData := plainRecord "e1" "2024-01-01" "Camp A" 100

/-- Incoming import record with the same merge key as `c3exist` but a
different `spent`. -/
def c3incoming : CampaignData := plainRecord "i1" "2024-01-01" "Camp A" 999

/-- Existing record carrying the enrichment value `impressions = 500`. -/
def c4exist : CampaignData :=
  { plainRecord "e1" "2024-01-01" "Camp A" 100 with impressions := some 500 }

/-- Bare re-import record for the same key as `c4exist`, with no
`impressions` value. -/
def c4incoming : CampaignData := plainRecord "i1" "2024-01-01" "Camp A" 200

/-- Two sheet records whose trimmed merge keys collide. -/
def c5sheet1 : CampaignData := plainRecord "s1" "2024-01-01" "Camp A" 10

/-- Second sheet record: same date, campaign name with a trailing blank, so
the trimmed enrichment-merge key equals that of `c5sheet1`. -/
def c5sheet2 : CampaignData := plainRecord "s2" "2024-01-01" "Camp A " 20

/-- Working-set record for the merge-key case-sensitivity test. -/
def c6exist : CampaignData := plainRecord "e1" "2024-01-01" "Camp A" 100

/-- Import record differing from `c6exist` only in letter case. -/
def c6lower : CampaignData := plainRecord "i1" "2024-01-01" "camp a" 200

/-- Import record differing from `c6exist` only in leading whitespace. -/
def c6padded : CampaignData := plainRecord "i2" "2024-01-01" " Camp A" 200

/-- External record differing from `c6exist` only in letter case, carrying
`impressions = 7`. -/
def c6fb : CampaignData :=
  { plainRecord "f1" "2024-01-01" "camp a" 0 with impressions := some 7 }

/-- Raw insights API entry with 10 link clicks and 5 purchases on a spend of
100 and 1000 impressions. -/
def c7entry : FbApiEntry :=
  { date_start := "2024-01-02", campaign_id := "123", campaign_name := "Camp A",
    spend := 100, impressions := 1000, reach := 500,
    actions := some [{ action_type := "link_click", value := 10 },
                     { action_type := "omni_purchase", value := 5 }] }

/-- Sheet record with nonzero tabular fields, for the enrichment-merge
frame test. -/
def c9sheet : CampaignData :=
  { plainRecord "s1" "2024-01-01" "Camp A" 100 with
    cpc := 2, roas := 3, cvr := 1/10, cpa := 5,
    clicks := 50, conversions := 20, revenue := 300 }

/-- External record for the same key as `c9sheet` carrying all six optional
fields. -/
def c9fb : CampaignData :=
  { plainRecord "f1" "2024-01-01" "Camp A" 0 with
    reach := some 1000, impressions := some 5000, cpm := some 2,
    ctr := some (1/100), linkClicks := some 50, frequency := some 5 }

/-- Existing record carrying the nonzero enrichment value `reach = 800`. -/
def c10exist : CampaignData :=
  { plainRecord "e1" "2024-01-01" "Camp A" 100 with reach := some 800 }

/-- Incoming record whose `reach` was parsed as an explicit 0. -/
def c10incoming : CampaignData :=
  { plainRecord "i1" "2024-01-01" "Camp A" 200 with reach := some 0 }

theorem mapGet_mapSet {β : Type} (m : List (String × β)) (k k' : String) (v : β) :
    mapGet (mapSet m k v) k' = if k = k' then some v else mapGet m k' := by
  induction m with
  | nil =>
    by_cases h : k = k' <;> simp [mapSet, mapGet, h]
  | cons p rest ih =>
    obtain ⟨k0, v0⟩ := p
    by_cases h : k0 = k
    · subst h
      by_cases h2 : k0 = k'
      · subst h2; simp [mapSet, mapGet]
      · simp [mapSet, mapGet, h2]
    · by_cases h2 : k = k'
      · subst h2
        simp [mapSet, mapGet, h, ih]
      · simp [mapSet, mapGet, h, h2, ih]

theorem mapGet_eq_none_iff {β : Type} (m : List (String × β)) (k : String) :
    mapGet m k = none ↔ k ∉ m.map Prod.fst := by
  induction m with
  | nil => simp [mapGet]
  | cons p rest ih =>
    obtain ⟨k0, v0⟩ := p
    by_cases h : k0 = k
    · subst h; simp [mapGet]
    · simp [mapGet, h, Ne.symm h, ih]

theorem mem_of_mapGet_eq_some {β : Type} {m : List (String × β)} {k : String} {v : β}
    (h : mapGet m k = some v) : (k, v) ∈ m := by
  induction m with
  | nil => simp [mapGet] at h
  | cons p rest ih =>
    obtain ⟨k0, v0⟩ := p
    by_cases hk : k0 = k
    · subst hk
      simp [mapGet] at h
      subst h
      exact List.mem_cons_self _ _
    · simp only [mapGet, if_neg hk] at h
      exact List.mem_cons_of_mem _ (ih h)

theorem mapGet_foldUpsert {α β : Type} (keyf : α → String) (f : Option β → α → β)
    (l : List α) (m : List (String × β)) (k : String) :
    mapGet (foldUpsert keyf f m l) k =
      (l.filter (fun a => keyf a = k)).foldl (fun acc a => some (f acc a)) (mapGet m k) := by
  induction l generalizing m with
  | nil => rfl
  | cons a t ih =>
    have hstep : foldUpsert keyf f m (a :: t)
        = foldUpsert keyf f (mapSet m (keyf a) (f (mapGet m (keyf a)) a)) t := rfl
    rw [hstep, ih, mapGet_mapSet]
    by_cases h : keyf a = k
    · simp [List.filter_cons, h]
    · simp [List.filter_cons, h]

theorem mapGet_foldUpdate {α β : Type} (keyf : α → String) (g : β → α → β)
    (l : List α) (m : List (String × β)) (k : String) :
    mapGet (foldUpdate keyf g m l) k =
      (l.filter (fun a => keyf a = k)).foldl
        (fun acc a => acc.map (fun e => g e a)) (mapGet m k) := by
  induction l generalizing m with
  | nil => rfl
  | cons a t ih =>
    rcases hme : mapGet m (keyf a) with _ | e
    · have hstep : foldUpdate keyf g m (a :: t) = foldUpdate keyf g m t := by
        simp [foldUpdate, hme]
      rw [hstep, ih]
      by_cases h : keyf a = k
      · rw [← h, hme]
        simp [List.filter_cons, h]
      · simp [List.filter_cons, h]
    · have hstep : foldUpdate keyf g m (a :: t)
          = foldUpdate keyf g (mapSet m (keyf a) (g e a)) t := by
        simp [foldUpdate, hme]
      rw [hstep, ih, mapGet_mapSet]
      by_cases h : keyf a = k
      · rw [← h, hme]
        simp [List.filter_cons, h]
      · simp [List.filter_cons, h]

theorem foldl_some_eq {α β : Type} (f : Option β → α → β) (l : List α) (b : β) :
    l.foldl (fun acc a => some (f acc a)) (some b)
      = some (l.foldl (fun b a => f (some b) a) b) := by
  induction l generalizing b with
  | nil => rfl
  | cons a t ih => simp [List.foldl_cons, ih]

theorem foldl_map_some {α β : Type} (g : β → α → β) (l : List α) (b : β) :
    l.foldl (fun acc a => acc.map (fun e => g e a)) (some b) = some (l.foldl g b) := by
  induction l generalizing b with
  | nil => rfl
  | cons a t ih => simp [List.foldl_cons, ih]

theorem mapSet_keys_of_get_some {β : Type} {m : List (String × β)} {k : String} {e : β}
    (v : β) (h : mapGet m k = some e) :
    (mapSet m k v).map Prod.fst = m.map Prod.fst := by
  induction m with
  | nil => simp [mapGet] at h
  | cons p rest ih =>
    obtain ⟨k0, v0⟩ := p
    by_cases hk : k0 = k
    · subst hk; simp [mapSet]
    · simp only [mapGet, if_neg hk] at h
      simp [mapSet, hk, ih h]

theorem mapSet_append_of_get_none {β : Type} {m : List (String × β)} {k : String}
    (v : β) (h : mapGet m k = none) :
    mapSet m k v = m ++ [(k, v)] := by
  induction m with
  | nil => rfl
  | cons p rest ih =>
    obtain ⟨k0, v0⟩ := p
    by_cases hk : k0 = k
    · simp [mapGet, hk] at h
    · simp only [mapGet, if_neg hk] at h
      simp [mapSet, hk, ih h]

theorem foldUpdate_keys {α β : Type} (keyf : α → String) (g : β → α → β)
    (l : List α) (m : List (String × β)) :
    (foldUpdate keyf g m l).map Prod.fst = m.map Prod.fst := by
  induction l generalizing m with
  | nil => rfl
  | cons a t ih =>
    rcases hme : mapGet m (keyf a) with _ | e
    · have hstep : foldUpdate keyf g m (a :: t) = foldUpdate keyf g m t := by
        simp [foldUpdate, hme]
      rw [hstep, ih]
    · have hstep : foldUpdate keyf g m (a :: t)
          = foldUpdate keyf g (mapSet m (keyf a) (g e a)) t := by
        simp [foldUpdate, hme]
      rw [hstep, ih, mapSet_keys_of_get_some _ hme]

theorem foldUpsert_keys_of_nodup {α β : Type} (keyf : α → String) (f : Option β → α → β) :
    ∀ (l : List α) (m : List (String × β)),
      (m.map Prod.fst ++ l.map keyf).Nodup →
      (foldUpsert keyf f m l).map Prod.fst = m.map Prod.fst ++ l.map keyf := by
  intro l
  induction l with
  | nil => intro m _; simp [foldUpsert]
  | cons a t ih =>
    intro m hnd
    have hget : mapGet m (keyf a) = none := by
      rw [mapGet_eq_none_iff]
      intro hmem
      rw [List.nodup_append] at hnd
      exact hnd.2.2 hmem (by simp)
    have hstep : foldUpsert keyf f m (a :: t)
        = foldUpsert keyf f (mapSet m (keyf a) (f (mapGet m (keyf a)) a)) t := rfl
    rw [hstep, mapSet_append_of_get_none _ hget, ih]
    · simp
    · simp only [List.map_append, List.map_cons, List.map_nil]
      have : m.map Prod.fst ++ [keyf a] ++ t.map keyf
          = m.map Prod.fst ++ keyf a :: t.map keyf := by simp
      rw [this]
      simpa using hnd

theorem mapSet_forall {β : Type} (P : String × β → Prop) :
    ∀ (m : List (String × β)) (k : String) (v : β),
      (∀ p ∈ m, P p) → P (k, v) → ∀ p ∈ mapSet m k v, P p := by
  intro m
  induction m with
  | nil =>
    intro k v _ hv p hp
    simp [mapSet] at hp
    subst hp
    exact hv
  | cons q rest ih =>
    obtain ⟨k0, v0⟩ := q
    intro k v hm hv p hp
    by_cases hk : k0 = k
    · simp only [mapSet, if_pos hk] at hp
      rcases List.mem_cons.mp hp with rfl | hp
      · exact hv
      · exact hm p (List.mem_cons_of_mem _ hp)
    · simp only [mapSet, if_neg hk] at hp
      rcases List.mem_cons.mp hp with rfl | hp
      · exact hm _ (List.mem_cons_self _ _)
      · exact ih k v (fun p hp => hm p (List.mem_cons_of_mem _ hp)) hv p hp

theorem foldUpsert_forall {α β : Type} (keyf : α → String) (f : Option β → α → β)
    (P : String × β → Prop)
    (hstep : ∀ (cur : Option β) (a : α), P (keyf a, f cur a)) :
    ∀ (l : List α) (m : List (String × β)),
      (∀ p ∈ m, P p) → ∀ p ∈ foldUpsert keyf f m l, P p := by
  intro l
  induction l with
  | nil => intro m hm; simpa [foldUpsert] using hm
  | cons a t ih =>
    intro m hm
    exact ih _ (mapSet_forall P m (keyf a) _ hm (hstep _ a))

theorem foldUpdate_forall {α β : Type} (keyf : α → String) (g : β → α → β)
    (P : String × β → Prop)
    (hstep : ∀ (k : String) (e : β) (a : α), P (k, e) → P (k, g e a)) :
    ∀ (l : List α) (m : List (String × β)),
      (∀ p ∈ m, P p) → ∀ p ∈ foldUpdate keyf g m l, P p := by
  intro l
  induction l with
  | nil => intro m hm; simpa [foldUpdate] using hm
  | cons a t ih =>
    intro m hm
    rcases hme : mapGet m (keyf a) with _ | e
    · have hst : foldUpdate keyf g m (a :: t) = foldUpdate keyf g m t := by
        simp [foldUpdate, hme]
      rw [hst]
      exact ih m hm
    · have hst : foldUpdate keyf g m (a :: t)
          = foldUpdate keyf g (mapSet m (keyf a) (g e a)) t := by
        simp [foldUpdate, hme]
      rw [hst]
      refine ih _ (mapSet_forall P m (keyf a) _ hm ?_)
      exact hstep _ _ a (hm _ (mem_of_mapGet_eq_some hme))

theorem sortByDate_perm (l : List CampaignData) : (sortByDate l).Perm l :=
  List.perm_insertionSort _ l

theorem mem_sortByDate {r : CampaignData} {l : List CampaignData} :
    r ∈ sortByDate l ↔ r ∈ l :=
  (sortByDate_perm l).mem_iff

theorem length_sortByDate (l : List CampaignData) :
    (sortByDate l).length = l.length :=
  (sortByDate_perm l).length_eq

theorem foldl_aggAdd_spent (g : List CampaignData) :
    ∀ a : CampaignData, (g.foldl aggAdd a).spent = a.spent + sumBy (fun r => r.spent) g := by
  induction g with
  | nil => intro a; simp [sumBy]
  | cons x xs ih =>
    intro a
    rw [List.foldl_cons, ih]
    simp [aggAdd, sumBy]
    ring

theorem foldl_aggAdd_revenue (g : List CampaignData) :
    ∀ a : CampaignData, (g.foldl aggAdd a).revenue = a.revenue + sumBy (fun r => r.revenue) g := by
  induction g with
  | nil => intro a; simp [sumBy]
  | cons x xs ih =>
    intro a
    rw [List.foldl_cons, ih]
    simp [aggAdd, sumBy]
    ring

theorem foldl_aggAdd_clicks (g : List CampaignData) :
    ∀ a : CampaignData, (g.foldl aggAdd a).clicks = a.clicks + sumBy (fun r => r.clicks) g := by
  induction g with
  | nil => intro a; simp [sumBy]
  | cons x xs ih =>
    intro a
    rw [List.foldl_cons, ih]
    simp [aggAdd, sumBy]
    ring

theorem foldl_aggAdd_conversions (g : List CampaignData) :
    ∀ a : CampaignData,
      (g.foldl aggAdd a).conversions = a.conversions + sumBy (fun r => r.conversions) g := by
  induction g with
  | nil => intro a; simp [sumBy]
  | cons x xs ih =>
    intro a
    rw [List.foldl_cons, ih]
    simp [aggAdd, sumBy]
    ring

theorem foldl_aggAdd_id (g : List CampaignData) :
    ∀ a : CampaignData, (g.foldl aggAdd a).id = a.id := by
  induction g with
  | nil => intro a; rfl
  | cons x xs ih =>
    intro a
    rw [List.foldl_cons, ih]
    rfl

theorem aggMap_get (l : List CampaignData) (c : String) (x : CampaignData)
    (xs : List CampaignData)
    (hg : l.filter (fun i => i.campaignName = c) = x :: xs) :
    mapGet (aggMap l) c = some (xs.foldl aggAdd (aggAdd (aggStart x) x)) := by
  have h := mapGet_foldUpsert (fun item => item.campaignName)
    (fun cur item => aggAdd (cur.getD (aggStart item)) item) l [] c
  rw [aggMap, h, hg, List.foldl_cons]
  simp only [Option.getD_none, mapGet]
  rw [foldl_some_eq]
  simp only [Option.getD_some]

/-- C1: for every group of records aggregated by campaign (every campaign
name `c` with a nonempty filtered group), the table aggregation first sums
`spent`, `revenue`, `clicks`, `conversions` over the group's records and
then recomputes each ratio metric from those sums — `roas` =
total revenue / total spent, `cpc` = total spent / total clicks, `cvr` =
total conversions / total clicks, `cpa` = total spent / total conversions —
each guarded to 0 when its denominator is 0 (the data's base quantities are
non-negative, as produced by the parsers). -/
theorem agg_by_campaign_sums_then_ratios (l : List CampaignData) (c : String)
    (x : CampaignData) (xs : List CampaignData)
    (hg : l.filter (fun i => i.campaignName = c) = x :: xs)
    (hpos : ∀ r ∈ l, 0 ≤ r.spent ∧ 0 ≤ r.clicks ∧ 0 ≤ r.conversions) :
    ∃ a ∈ aggregatedList l,
      a.id = c ∧
      a.spent = sumBy (fun r => r.spent) (x :: xs) ∧
      a.revenue = sumBy (fun r => r.revenue) (x :: xs) ∧
      a.clicks = sumBy (fun r => r.clicks) (x :: xs) ∧
      a.conversions = sumBy (fun r => r.conversions) (x :: xs) ∧
      a.roas = (if sumBy (fun r => r.spent) (x :: xs) = 0 then 0
        else sumBy (fun r => r.revenue) (x :: xs) / sumBy (fun r => r.spent) (x :: xs)) ∧
      a.cpc = (if sumBy (fun r => r.clicks) (x :: xs) = 0 then 0
        else sumBy (fun r => r.spent) (x :: xs) / sumBy (fun r => r.clicks) (x :: xs)) ∧
      a.cvr = (if sumBy (fun r => r.clicks) (x :: xs) = 0 then 0
        else sumBy (fun r => r.conversions) (x :: xs) / sumBy (fun r => r.clicks) (x :: xs)) ∧
      a.cpa = (if sumBy (fun r => r.conversions) (x :: xs) = 0 then 0
        else sumBy (fun r => r.spent) (x :: xs) / sumBy (fun r => r.conversions) (x :: xs)) := by
  have hget := aggMap_get l c x xs hg
  set v := xs.foldl aggAdd (aggAdd (aggStart x) x) with hv
  have hsub : ∀ y ∈ x :: xs, y ∈ l := by
    intro y hy
    rw [← hg] at hy
    exact List.mem_of_mem_filter hy
  have hname : x.campaignName = c := by
    have hx : x ∈ l.filter (fun i => i.campaignName = c) := by
      rw [hg]; exact List.mem_cons_self _ _
    simpa using List.of_mem_filter hx
  have hspent : v.spent = sumBy (fun r => r.spent) (x :: xs) := by
    rw [hv, foldl_aggAdd_spent]
    simp [aggAdd, aggStart, sumBy]
  have hrev : v.revenue = sumBy (fun r => r.revenue) (x :: xs) := by
    rw [hv, foldl_aggAdd_revenue]
    simp [aggAdd, aggStart, sumBy]
  have hclicks : v.clicks = sumBy (fun r => r.clicks) (x :: xs) := by
    rw [hv, foldl_aggAdd_clicks]
    simp [aggAdd, aggStart, sumBy]
  have hconv : v.conversions = sumBy (fun r => r.conversions) (x :: xs) := by
    rw [hv, foldl_aggAdd_conversions]
    simp [aggAdd, aggStart, sumBy]
  have hS0 : 0 ≤ sumBy (fun r => r.spent) (x :: xs) := by
    rw [sumBy]
    apply List.sum_nonneg
    intro q hq
    rw [List.mem_map] at hq
    obtain ⟨y, hy, rfl⟩ := hq
    exact (hpos y (hsub y hy)).1
  have hC0 : 0 ≤ sumBy (fun r => r.clicks) (x :: xs) := by
    rw [sumBy]
    apply List.sum_nonneg
    intro q hq
    rw [List.mem_map] at hq
    obtain ⟨y, hy, rfl⟩ := hq
    exact (hpos y (hsub y hy)).2.1
  have hV0 : 0 ≤ sumBy (fun r => r.conversions) (x :: xs) := by
    rw [sumBy]
    apply List.sum_nonneg
    intro q hq
    rw [List.mem_map] at hq
    obtain ⟨y, hy, rfl⟩ := hq
    exact (hpos y (hsub y hy)).2.2
  refine ⟨aggRecalc v, ?_, ?_, ?_, ?_, ?_, ?_, ?_, ?_, ?_, ?_⟩
  · exact List.mem_map_of_mem aggRecalc
      (List.mem_map_of_mem Prod.snd (mem_of_mapGet_eq_some hget))
  · have : v.id = c := by
      rw [hv, foldl_aggAdd_id]
      simp [aggAdd, aggStart, hname]
    simpa [aggRecalc] using this
  · simpa [aggRecalc] using hspent
  · simpa [aggRecalc] using hrev
  · simpa [aggRecalc] using hclicks
  · simpa [aggRecalc] using hconv
  · by_cases hz : sumBy (fun r => r.spent) (x :: xs) = 0
    · simp [aggRecalc, hspent, hz]
    · have hlt : 0 < sumBy (fun r => r.spent) (x :: xs) := lt_of_le_of_ne hS0 (Ne.symm hz)
      simp [aggRecalc, hspent, hrev, hz, hlt]
  · by_cases hz : sumBy (fun r => r.clicks) (x :: xs) = 0
    · simp [aggRecalc, hclicks, hz]
    · have hlt : 0 < sumBy (fun r => r.clicks) (x :: xs) := lt_of_le_of_ne hC0 (Ne.symm hz)
      simp [aggRecalc, hclicks, hspent, hz, hlt]
  · by_cases hz : sumBy (fun r => r.clicks) (x :: xs) = 0
    · simp [aggRecalc, hclicks, hz]
    · have hlt : 0 < sumBy (fun r => r.clicks) (x :: xs) := lt_of_le_of_ne hC0 (Ne.symm hz)
      simp [aggRecalc, hclicks, hconv, hz, hlt]
  · by_cases hz : sumBy (fun r => r.conversions) (x :: xs) = 0
    · simp [aggRecalc, hconv, hz]
    · have hlt : 0 < sumBy (fun r => r.conversions) (x :: xs) := lt_of_le_of_ne hV0 (Ne.symm hz)
      simp [aggRecalc, hconv, hspent, hz, hlt]

/-- Witness for C1 at the spec's own example: records with spent 100 /
revenue 50 and spent 300 / revenue 300 under one campaign name aggregate to
roas = 350/400 = 0.875, not the arithmetic mean 0.75 of the per-record roas
values. -/
theorem agg_by_campaign_sums_then_ratios_witness :
    ∃ a ∈ aggregatedList [c1day1, c1day2],
      a.id = "Camp A" ∧ a.roas = 7/8 ∧ ¬ a.roas = 3/4 := by
  have h := agg_by_campaign_sums_then_ratios [c1day1, c1day2] "Camp A" c1day1 [c1day2]
    (by simp [c1day1, c1day2, mkParsedRecord])
    (by
      intro r hr
      simp only [List.mem_cons, List.not_mem_nil, or_false] at hr
      rcases hr with rfl | rfl
      · norm_num [c1day1, mkParsedRecord]
      · norm_num [c1day2, mkParsedRecord])
  obtain ⟨a, ham, hid, _, _, _, _, hroas, _, _, _⟩ := h
  refine ⟨a, ham, hid, ?_, ?_⟩
  · rw [hroas]
    norm_num [sumBy, c1day1, c1day2, mkParsedRecord]
  · rw [hroas]
    norm_num [sumBy, c1day1, c1day2, mkParsedRecord]

/-- C8 counterexample: aggregating the singleton group of `c8record`
(spent 100, cpc 2, cpa 10, stored cvr 0.05) recomputes cvr as
conversions / clicks = 10 / 50 = 0.2, which differs from the record's own
stored cvr 0.05 — singleton aggregation is not the identity on all four
ratio metrics. -/
theorem singleton_agg_cvr_differs :
    (aggregatedList [c8record]).map (fun a => a.cvr) = [1/5] ∧
    c8record.cvr = 1/20 ∧ ¬ ((1:ℚ)/5 = 1/20) := by
  refine ⟨?_, ?_, by norm_num⟩
  · norm_num [aggregatedList, aggMap, foldUpsert, mapSet, mapGet, aggRecalc,
      aggAdd, aggStart, c8record, mkParsedRecord]
  · norm_num [c8record, mkParsedRecord]

/-- C8 amended: for a parsed record with positive spent, cpc and cpa,
aggregating its singleton group reproduces roas, cpc and cpa exactly, but
recomputes cvr as conversions / clicks = cpc / cpa, which coincides with the
record's stored cvr only when that stored value is consistent with cpc and
cpa. -/
theorem singleton_agg_ratio_identity_amended (id date name : String)
    (spent cpc roas cvr cpa : ℚ) (reach impressions cpm ctr frequency : Option ℚ)
    (hs : 0 < spent) (hc : 0 < cpc) (ha : 0 < cpa) :
    ∃ a, aggregatedList [mkParsedRecord id date name spent cpc roas cvr cpa
        reach impressions cpm ctr frequency] = [a] ∧
      a.roas = roas ∧ a.cpc = cpc ∧ a.cpa = cpa ∧ a.cvr = cpc / cpa := by
  have hs' : spent ≠ 0 := ne_of_gt hs
  have hc' : cpc ≠ 0 := ne_of_gt hc
  have ha' : cpa ≠ 0 := ne_of_gt ha
  set r := mkParsedRecord id date name spent cpc roas cvr cpa
    reach impressions cpm ctr frequency with hr
  refine ⟨aggRecalc (aggAdd (aggStart r) r), rfl, ?_, ?_, ?_, ?_⟩
  · simp [aggRecalc, aggAdd, aggStart, hr, mkParsedRecord, hs]
    exact mul_div_cancel_left₀ roas hs'
  · simp [aggRecalc, aggAdd, aggStart, hr, mkParsedRecord, hc, div_pos hs hc]
    rw [div_div_eq_mul_div]
    exact mul_div_cancel_left₀ cpc hs'
  · simp [aggRecalc, aggAdd, aggStart, hr, mkParsedRecord, ha, div_pos hs ha]
    rw [div_div_eq_mul_div]
    exact mul_div_cancel_left₀ cpa hs'
  · simp [aggRecalc, aggAdd, aggStart, hr, mkParsedRecord, hc, ha, div_pos hs hc]
    field_simp
    ring

/-- Witness for the amended C8 at spent 100, cpc 2, roas 1, cvr 0.05,
cpa 10: the aggregated row reproduces roas, cpc, cpa but recomputes
cvr = 2/10 = 0.2. -/
theorem singleton_agg_ratio_identity_amended_witness :
    ∃ a, aggregatedList [mkParsedRecord "r1" "2024-01-01" "Camp A" 100 2 1 (1/20) 10
        none none none none none] = [a] ∧
      a.roas = 1 ∧ a.cpc = 2 ∧ a.cpa = 10 ∧ a.cvr = 2/10 :=
  singleton_agg_ratio_identity_amended "r1" "2024-01-01" "Camp A" 100 2 1 (1/20) 10
    none none none none none (by norm_num) (by norm_num) (by norm_num)

theorem mergeCampaignMap_get (ex inc : List CampaignData) (k : String) (i : CampaignData)
    (hi : inc.filter (fun x => importKey x = k) = [i]) :
    mapGet (mergeCampaignMap ex inc) k
      = some (importCombine (mapGet (existingMap ex) k) i) := by
  have h := mapGet_foldUpsert importKey importCombine inc (existingMap ex) k
  rw [mergeCampaignMap, h, hi]
  rfl

theorem mergeCampaignMap_get_of_not_incoming (ex inc : List CampaignData) (k : String)
    (hi : inc.filter (fun x => importKey x = k) = []) :
    mapGet (mergeCampaignMap ex inc) k = mapGet (existingMap ex) k := by
  have h := mapGet_foldUpsert importKey importCombine inc (existingMap ex) k
  rw [mergeCampaignMap, h, hi]
  rfl

theorem mem_mergeCampaignData_of_get {ex inc : List CampaignData} {k : String}
    {r : CampaignData} (h : mapGet (mergeCampaignMap ex inc) k = some r) :
    r ∈ mergeCampaignData ex inc := by
  rw [mergeCampaignData, mem_sortByDate]
  exact List.mem_map_of_mem Prod.snd (mem_of_mapGet_eq_some h)

/-- C3 counterexample: merging incoming `c3incoming` (spent 999) into a
working set holding `c3exist` (same key, spent 100) replaces the existing
record: the merge result's only record has spent 999 and `c3exist` is not
kept unchanged in the result. -/
theorem import_merge_replaces_existing :
    (mergeCampaignData [c3exist] [c3incoming]).map (fun r => r.spent) = [999] ∧
    c3exist ∉ mergeCampaignData [c3exist] [c3incoming] ∧
    c3exist.spent = 100 := by
  have hres : mergeCampaignData [c3exist] [c3incoming] = [c3incoming] := rfl
  refine ⟨by rw [hres]; rfl, ?_, rfl⟩
  rw [hres]
  simp only [List.mem_singleton]
  intro h
  have hid := congrArg CampaignData.id h
  simp only [c3exist, c3incoming, plainRecord] at hid
  exact absurd hid (by decide)

/-- C3 amended: the import merge is incoming-wins, not local-wins — for a
key with exactly one incoming record, the merge result holds that incoming
record (with its six optional enrichment fields backfilled from the existing
record at the same key, when there is one) instead of the unchanged existing
record; keys without an incoming record keep their existing entry, and keys
absent from the existing set gain the incoming record. -/
theorem import_merge_incoming_wins (ex inc : List CampaignData) (k : String)
    (i : CampaignData) (hi : inc.filter (fun x => importKey x = k) = [i]) :
    mapGet (mergeCampaignMap ex inc) k
        = some (importCombine (mapGet (existingMap ex) k) i) ∧
    importCombine (mapGet (existingMap ex) k) i ∈ mergeCampaignData ex inc ∧
    (∀ k', inc.filter (fun x => importKey x = k') = [] →
      mapGet (mergeCampaignMap ex inc) k' = mapGet (existingMap ex) k') :=
  ⟨mergeCampaignMap_get ex inc k i hi,
   mem_mergeCampaignData_of_get (mergeCampaignMap_get ex inc k i hi),
   fun k' h => mergeCampaignMap_get_of_not_incoming ex inc k' h⟩

/-- Witness for the amended C3 at the concrete records `c3exist` and
`c3incoming` sharing the key `2024-01-01|Camp A`. -/
theorem import_merge_incoming_wins_witness :
    mapGet (mergeCampaignMap [c3exist] [c3incoming]) "2024-01-01|Camp A"
        = some (importCombine (mapGet (existingMap [c3exist]) "2024-01-01|Camp A")
            c3incoming) ∧
    importCombine (mapGet (existingMap [c3exist]) "2024-01-01|Camp A") c3incoming
        ∈ mergeCampaignData [c3exist] [c3incoming] ∧
    (∀ k', [c3incoming].filter (fun x => importKey x = k') = [] →
      mapGet (mergeCampaignMap [c3exist] [c3incoming]) k'
          = mapGet (existingMap [c3exist]) k') :=
  import_merge_incoming_wins [c3exist] [c3incoming] "2024-01-01|Camp A" c3incoming rfl

/-- C4: when the existing record for a key carries a nonzero enrichment
value (e.g. impressions = 500) and the incoming tabular record for the same
key carries no value for that field, the record for that key in the merge
result still carries the existing value — enrichment fields survive a bare
re-import. -/
theorem import_merge_enrichment_survives (ex inc : List CampaignData) (k : String)
    (e i : CampaignData) (v : ℚ)
    (he : mapGet (existingMap ex) k = some e)
    (hi : inc.filter (fun x => importKey x = k) = [i])
    (hv : e.impressions = some v) (hnz : v ≠ 0) (hni : i.impressions = none) :
    ∃ r, mapGet (mergeCampaignMap ex inc) k = some r ∧ r.impressions = some v ∧
      r ∈ mergeCampaignData ex inc := by
  have hget := mergeCampaignMap_get ex inc k i hi
  rw [he] at hget
  refine ⟨backfill i e, hget, ?_, mem_mergeCampaignData_of_get hget⟩
  simp [backfill, backfillField, truthyNum, hni, hv, hnz]

/-- Witness for C4: re-importing the key `2024-01-01|Camp A` from a bare row
keeps the previously stored `impressions = 500`. -/
theorem import_merge_enrichment_survives_witness :
    ∃ r, mapGet (mergeCampaignMap [c4exist] [c4incoming]) "2024-01-01|Camp A" = some r ∧
      r.impressions = some 500 ∧ r ∈ mergeCampaignData [c4exist] [c4incoming] :=
  import_merge_enrichment_survives [c4exist] [c4incoming] "2024-01-01|Camp A"
    c4exist c4incoming 500 rfl rfl rfl (by norm_num) rfl

/-- C10: in the import merge an incoming enrichment field parsed as an
explicit 0 is treated like an absent one — for each of the six enrichment
fields, when the incoming value is `some 0` and the existing record carries
a nonzero value, the merged record carries the existing nonzero value. -/
theorem import_merge_zero_treated_absent (ex inc : List CampaignData) (k : String)
    (e i : CampaignData)
    (he : mapGet (existingMap ex) k = some e)
    (hi : inc.filter (fun x => importKey x = k) = [i]) :
    ∃ r, mapGet (mergeCampaignMap ex inc) k = some r ∧
      r ∈ mergeCampaignData ex inc ∧
      (∀ v, i.reach = some 0 → e.reach = some v → v ≠ 0 → r.reach = some v) ∧
      (∀ v, i.impressions = some 0 → e.impressions = some v → v ≠ 0 →
        r.impressions = some v) ∧
      (∀ v, i.cpm = some 0 → e.cpm = some v → v ≠ 0 → r.cpm = some v) ∧
      (∀ v, i.ctr = some 0 → e.ctr = some v → v ≠ 0 → r.ctr = some v) ∧
      (∀ v, i.frequency = some 0 → e.frequency = some v → v ≠ 0 →
        r.frequency = some v) ∧
      (∀ v, i.linkClicks = some 0 → e.linkClicks = some v → v ≠ 0 →
        r.linkClicks = some v) := by
  have hget := mergeCampaignMap_get ex inc k i hi
  rw [he] at hget
  refine ⟨backfill i e, hget, mem_mergeCampaignData_of_get hget,
    ?_, ?_, ?_, ?_, ?_, ?_⟩
  all_goals
    intro v h1 h2 h3
    simp [backfill, backfillField, truthyNum, h1, h2, h3]

/-- Witness for C10: an incoming `reach = 0` does not wipe the existing
`reach = 800`. -/
theorem import_merge_zero_treated_absent_witness :
    ∃ r, mapGet (mergeCampaignMap [c10exist] [c10incoming]) "2024-01-01|Camp A"
        = some r ∧ r.reach = some 800 := by
  obtain ⟨r, hget, _, hreach, _⟩ :=
    import_merge_zero_treated_absent [c10exist] [c10incoming] "2024-01-01|Camp A"
      c10exist c10incoming rfl rfl
  exact ⟨r, hget, hreach 800 rfl rfl (by norm_num)⟩

/-- C6 counterexample: records with equal dates whose campaign names differ
only in letter case (or only in leading whitespace) are distinct merge keys
for the import merge — both survive the merge — and an external record whose
name differs only in case does not enrich the sheet record, so key
comparison is not case- or whitespace-insensitive. -/
theorem merge_key_not_insensitive :
    (mergeCampaignData [c6exist] [c6lower]).length = 2 ∧
    (mergeCampaignData [c6exist] [c6padded]).length = 2 ∧
    (mergeFacebookData [c6exist] [c6fb]).map (fun r => r.impressions) = [none] ∧
    c6fb.impressions = some 7 := by
  refine ⟨?_, ?_, rfl, rfl⟩
  · rw [mergeCampaignData, length_sortByDate]
    rfl
  · rw [mergeCampaignData, length_sortByDate]
    rfl

/-- C6 amended: merge-key comparison is exact string comparison — the import
merge compares `date|campaignName` with the name exactly as stored (case-
and whitespace-sensitive) while the enrichment merge compares
`date|trim(campaignName)` (insensitive to leading/trailing whitespace but
still case-sensitive): two single-record sets merge to one record precisely
when the respective keys are exactly equal. -/
theorem merge_key_exact_comparison (e i s f : CampaignData) :
    ((mergeCampaignData [e] [i]).length = 1 ↔ importKey i = importKey e) ∧
    ((mergeCampaignData [e] [i]).length = 2 ↔ importKey i ≠ importKey e) ∧
    (mapGet (fbMergeMap [s] [f]) (fbKey s)
        = some (if fbKey f = fbKey s then applyFb s f else s)) := by
  have hlen : (mergeCampaignData [e] [i]).length = (mergeCampaignMap [e] [i]).length := by
    rw [mergeCampaignData, length_sortByDate, List.length_map]
  by_cases hk : importKey i = importKey e
  · have h1 : (mergeCampaignMap [e] [i]).length = 1 := by
      simp [mergeCampaignMap, existingMap, foldUpsert, mapSet, mapGet, hk]
    refine ⟨?_, ?_, ?_⟩
    · simp [hlen, h1, hk]
    · simp [hlen, h1, hk]
    · by_cases hk2 : fbKey f = fbKey s
      · simp [fbMergeMap, sheetMap, foldUpdate, foldUpsert, mapSet, mapGet, hk2]
      · have hk2' : ¬ (fbKey s = fbKey f) := fun h => hk2 h.symm
        simp [fbMergeMap, sheetMap, foldUpdate, foldUpsert, mapSet, mapGet, hk2, hk2']
  · have hk' : ¬ (importKey e = importKey i) := fun h => hk h.symm
    have h2 : (mergeCampaignMap [e] [i]).length = 2 := by
      simp [mergeCampaignMap, existingMap, foldUpsert, mapSet, mapGet, hk, hk']
    refine ⟨?_, ?_, ?_⟩
    · simp [hlen, h2, hk]
    · simp [hlen, h2, hk]
    · by_cases hk2 : fbKey f = fbKey s
      · simp [fbMergeMap, sheetMap, foldUpdate, foldUpsert, mapSet, mapGet, hk2]
      · have hk2' : ¬ (fbKey s = fbKey f) := fun h => hk2 h.symm
        simp [fbMergeMap, sheetMap, foldUpdate, foldUpsert, mapSet, mapGet, hk2, hk2']

/-- Witness for the amended C6: the case-variant key of `c6lower` is not
equal to that of `c6exist`, so both records survive the import merge. -/
theorem merge_key_exact_comparison_witness :
    (mergeCampaignData [c6exist] [c6lower]).length = 2 :=
  ((merge_key_exact_comparison c6exist c6lower c6exist c6fb).2.1).mpr (by decide)

theorem fbMergeMap_get (sd fd : List CampaignData) (k : String) (e : CampaignData)
    (he : mapGet (sheetMap sd) k = some e) :
    mapGet (fbMergeMap sd fd) k
      = some ((fd.filter (fun x => fbKey x = k)).foldl applyFb e) := by
  have h := mapGet_foldUpdate fbKey applyFb fd (sheetMap sd) k
  rw [fbMergeMap, h, he, foldl_map_some]

theorem mem_mergeFacebookData_of_get {sd fd : List CampaignData} {k : String}
    {r : CampaignData} (h : mapGet (fbMergeMap sd fd) k = some r) :
    r ∈ mergeFacebookData sd fd := by
  rw [mergeFacebookData, mem_sortByDate]
  exact List.mem_map_of_mem Prod.snd (mem_of_mapGet_eq_some h)

theorem foldl_applyFb_tabular (fs : List CampaignData) :
    ∀ e : CampaignData,
      (fs.foldl applyFb e).id = e.id ∧
      (fs.foldl applyFb e).date = e.date ∧
      (fs.foldl applyFb e).campaignName = e.campaignName ∧
      (fs.foldl applyFb e).spent = e.spent ∧
      (fs.foldl applyFb e).cpc = e.cpc ∧
      (fs.foldl applyFb e).roas = e.roas ∧
      (fs.foldl applyFb e).cvr = e.cvr ∧
      (fs.foldl applyFb e).cpa = e.cpa ∧
      (fs.foldl applyFb e).clicks = e.clicks ∧
      (fs.foldl applyFb e).conversions = e.conversions ∧
      (fs.foldl applyFb e).revenue = e.revenue := by
  induction fs with
  | nil =>
    intro e
    exact ⟨rfl, rfl, rfl, rfl, rfl, rfl, rfl, rfl, rfl, rfl, rfl⟩
  | cons x xs ih =>
    intro e
    rw [List.foldl_cons]
    simpa [applyFb] using ih (applyFb e x)

theorem sheetMap_consistent (sd : List CampaignData) :
    ∀ p ∈ sheetMap sd, fbKey p.2 = p.1 :=
  foldUpsert_forall fbKey (fun _ item => item) (fun p => fbKey p.2 = p.1)
    (fun _ _ => rfl) sd [] (fun p hp => absurd hp (List.not_mem_nil p))

theorem fbMergeMap_consistent (sd fd : List CampaignData) :
    ∀ p ∈ fbMergeMap sd fd, fbKey p.2 = p.1 :=
  foldUpdate_forall fbKey applyFb (fun p => fbKey p.2 = p.1)
    (fun k e a h => by simpa [fbKey, applyFb] using h) fd (sheetMap sd)
    (sheetMap_consistent sd)

/-- C9: in the enrichment merge, each matched record in the result keeps all
its tabular-side fields unchanged — `id`, `date`, `campaignName`, `spent`,
`cpc`, `roas`, `cvr`, `cpa`, `clicks`, `conversions`, `revenue` are exactly
those of the pre-merge working-set record stored at that key; only the six
optional external fields may change. -/
theorem enrichment_merge_preserves_tabular_fields (sd fd : List CampaignData)
    (k : String) (e : CampaignData) (he : mapGet (sheetMap sd) k = some e) :
    ∃ v, mapGet (fbMergeMap sd fd) k = some v ∧ v ∈ mergeFacebookData sd fd ∧
      v.id = e.id ∧ v.date = e.date ∧ v.campaignName = e.campaignName ∧
      v.spent = e.spent ∧ v.cpc = e.cpc ∧ v.roas = e.roas ∧ v.cvr = e.cvr ∧
      v.cpa = e.cpa ∧ v.clicks = e.clicks ∧ v.conversions = e.conversions ∧
      v.revenue = e.revenue := by
  have hget := fbMergeMap_get sd fd k e he
  obtain ⟨h1, h2, h3, h4, h5, h6, h7, h8, h9, h10, h11⟩ :=
    foldl_applyFb_tabular (fd.filter (fun x => fbKey x = k)) e
  exact ⟨_, hget, mem_mergeFacebookData_of_get hget,
    h1, h2, h3, h4, h5, h6, h7, h8, h9, h10, h11⟩

/-- Witness for C9: enriching `c9sheet` from `c9fb` keeps `spent` and `roas`
unchanged. -/
theorem enrichment_merge_preserves_tabular_fields_witness :
    ∃ v, mapGet (fbMergeMap [c9sheet] [c9fb]) "2024-01-01|Camp A" = some v ∧
      v.spent = c9sheet.spent ∧ v.roas = c9sheet.roas := by
  obtain ⟨v, hget, _, _, _, _, hspent, _, hroas, _, _, _, _, _⟩ :=
    enrichment_merge_preserves_tabular_fields [c9sheet] [c9fb]
      "2024-01-01|Camp A" c9sheet rfl
  exact ⟨v, hget, hspent, hroas⟩

/-- C5 counterexample: a working set holding the two records `c5sheet1` and
`c5sheet2`, which share the same trimmed merge key, collapses to a single
map entry, so the enrichment-merge result has 1 record while the working set
has 2 — the size is not always unchanged. -/
theorem enrichment_merge_shrinks_duplicate_keys :
    (mergeFacebookData [c5sheet1, c5sheet2] []).length = 1 ∧
    ([c5sheet1, c5sheet2] : List CampaignData).length = 2 := by
  refine ⟨?_, rfl⟩
  rw [mergeFacebookData, length_sortByDate]
  rfl

/-- C5 amended: provided the working set's trimmed merge keys are pairwise
distinct, the enrichment-merge result's keys are a permutation of the
working set's keys and its size is unchanged — unmatched external rows are
discarded, never inserted — and each working-set record matched by exactly
one external record appears in the result with the six optional external
fields overwritten from that external record. -/
theorem enrichment_merge_keys_and_overlay (sd fd : List CampaignData)
    (hnd : (sd.map fbKey).Nodup) :
    ((mergeFacebookData sd fd).map fbKey).Perm (sd.map fbKey) ∧
    (mergeFacebookData sd fd).length = sd.length ∧
    (∀ k e f, mapGet (sheetMap sd) k = some e →
      fd.filter (fun x => fbKey x = k) = [f] →
      mapGet (fbMergeMap sd fd) k = some (applyFb e f) ∧
      applyFb e f ∈ mergeFacebookData sd fd) := by
  have hsheetkeys : (sheetMap sd).map Prod.fst = sd.map fbKey := by
    have h := foldUpsert_keys_of_nodup fbKey (fun _ item => item) sd []
      (by simpa using hnd)
    simpa [sheetMap] using h
  have hmapkeys : (fbMergeMap sd fd).map Prod.fst = sd.map fbKey := by
    rw [fbMergeMap, foldUpdate_keys, hsheetkeys]
  have hkeys : ((fbMergeMap sd fd).map Prod.snd).map fbKey = sd.map fbKey := by
    rw [List.map_map]
    have hcong : (fbMergeMap sd fd).map (fbKey ∘ Prod.snd)
        = (fbMergeMap sd fd).map Prod.fst :=
      List.map_congr_left (fun p hp => fbMergeMap_consistent sd fd p hp)
    rw [hcong, hmapkeys]
  have hp : (mergeFacebookData sd fd).Perm ((fbMergeMap sd fd).map Prod.snd) := by
    rw [mergeFacebookData]
    exact sortByDate_perm _
  refine ⟨?_, ?_, ?_⟩
  · have := hp.map fbKey
    rw [hkeys] at this
    exact this
  · have hlv : ((fbMergeMap sd fd).map Prod.snd).length = sd.length := by
      have := congrArg List.length hkeys
      simpa using this
    rw [mergeFacebookData, length_sortByDate, hlv]
  · intro k e f he hf
    have hget := fbMergeMap_get sd fd k e he
    rw [hf] at hget
    exact ⟨hget, mem_mergeFacebookData_of_get hget⟩

/-- Witness for the amended C5: a one-record working set keeps exactly its
one key and its size through an enrichment merge. -/
theorem enrichment_merge_keys_and_overlay_witness :
    (mergeFacebookData [c9sheet] [c9fb]).length = ([c9sheet] : List CampaignData).length ∧
    (mergeFacebookData [c9sheet] [c9fb]).length = 1 := by
  have h := enrichment_merge_keys_and_overlay [c9sheet] [c9fb] (by simp)
  exact ⟨h.2.1, by rw [h.2.1]; rfl⟩

/-- C7 (code bug): on `c7entry` — spend 100, 1000 impressions, an action
list carrying 10 link clicks and 5 purchases — the insights client computes
`cpc = spend/linkClicks = 10`, `ctr = linkClicks/impressions = 0.01` and
`cpm = spend/(impressions/1000) = 100` from the extracted link clicks, but
never extracts the `omni_purchase` count: `cpa`, `cvr` and `conversions` on
the produced record are the hard-coded 0 rather than spend/purchases = 20
and purchases/linkClicks = 0.5, even though the request filter explicitly
asks the API for `omni_purchase` actions. -/
theorem fb_client_ignores_purchases :
    (mapFbEntry c7entry 0).cpa = 0 ∧
    (mapFbEntry c7entry 0).cvr = 0 ∧
    (mapFbEntry c7entry 0).conversions = 0 ∧
    (mapFbEntry c7entry 0).cpc = 10 ∧
    (mapFbEntry c7entry 0).ctr = some (1/100) ∧
    (mapFbEntry c7entry 0).cpm = some 100 ∧
    ¬ ((100:ℚ)/5 = 0) ∧ ¬ ((5:ℚ)/10 = 0) := by
  have hlc : entryLinkClicks c7entry = 10 := rfl
  refine ⟨rfl, rfl, rfl, ?_, ?_, ?_, by norm_num, by norm_num⟩
  · rw [mapFbEntry, hlc]
    norm_num [c7entry]
  · rw [mapFbEntry, hlc]
    norm_num [c7entry]
  · rw [mapFbEntry]
    norm_num [c7entry]

/-- C2 counterexample: the insights fetch for the 65-day range 2024-01-01 to
2024-03-05 issues exactly 1 request, not the 3 chunked requests (30 + 30 + 5
days) the claim requires. -/
theorem fb_fetch_sixty_five_day_range_single_request :
    (fbInsightsRequests (some "2024-01-01") (some "2024-03-05")).length = 1 ∧
    ¬ ((fbInsightsRequests (some "2024-01-01") (some "2024-03-05")).length = 3) := by
  decide

/-- C2 amended: every fetch issues exactly one request — covering the whole
supplied range via `time_range={since,until}` when both endpoints are
truthy, otherwise falling back to `date_preset=maximum` — with no 30-day
chunking and no pagination-cursor following, so a 65-day range produces
exactly 1 request. -/
theorem fb_fetch_issues_one_request (s e : Option String) :
    (fbInsightsRequests s e).length = 1 ∧
    ((truthyStr s && truthyStr e) = true →
      fbInsightsRequests s e
        = [{ timeRange := some (s.getD "", e.getD ""),
             datePreset := none, limit := 1000 }]) ∧
    ((truthyStr s && truthyStr e) = false →
      fbInsightsRequests s e
        = [{ timeRange := none, datePreset := some "maximum", limit := 1000 }]) := by
  refine ⟨?_, fun h => ?_, fun h => ?_⟩
  · by_cases h : (truthyStr s && truthyStr e) = true <;> simp [fbInsightsRequests, h]
  · simp [fbInsightsRequests, h]
  · simp [fbInsightsRequests, h]

/-- Witness for the amended C2 at the 65-day range 2024-01-01 to
2024-03-05: one request carrying the whole range. -/
theorem fb_fetch_issues_one_request_witness :
    (fbInsightsRequests (some "2024-01-01") (some "2024-03-05")).length = 1 ∧
    fbInsightsRequests (some "2024-01-01") (some "2024-03-05")
      = [{ timeRange := some ("2024-01-01", "2024-03-05"),
           datePreset := none, limit := 1000 }] := by
  have h := fb_fetch_issues_one_request (some "2024-01-01") (some "2024-03-05")
  exact ⟨h.1, h.2.1 (by decide)⟩
